import Mathlib

set_option maxHeartbeats 1000000

/-
Shallow embedding of the match-and-alert core of the ApnaCriminal repository
(real_survillance/backend: detector.py, backend_adapter.py, faces.py).
Vectors and timestamps are modelled over the exact rationals; the square root
used by np.linalg.norm is an explicit function parameter, since the rationals
are not closed under square roots.  Theorems that depend on properties of the
square root state them as satisfiable hypotheses.
-/

namespace ApnaCriminal

/-! ## Gallery matcher: detector.match_embedding -/

/-- Sum of squares of a vector; np.linalg.norm(v) is the square root of this,
so the norm is zero exactly when sumSq is zero. -/
def sumSq (v : List ℚ) : ℚ := (v.map (fun x => x * x)).sum

/-- Dot product of two vectors (numpy matrix-vector row product). -/
def dot (u v : List ℚ) : ℚ := (List.zipWith (fun a b => a * b) u v).sum

/-- Index of the first occurrence of the maximum of a list (np.argmax semantics);
0 on the empty list, which the source never reaches. -/
def argmaxIdx : List ℚ → ℕ
  | [] => 0
  | x :: xs => if xs.all (fun y => decide (y ≤ x)) then 0 else argmaxIdx xs + 1

/-- The list comprehension in match_embedding: normalize every gallery vector and
skip any gallery vector whose norm is zero.  The parameter sq models the square
root inside np.linalg.norm, so sq (sumSq ref) is the L2 norm of ref. -/
def normalizeList (sq : ℚ → ℚ) (known : List (List ℚ)) : List (List ℚ) :=
  known.filterMap (fun ref =>
    let n := sq (sumSq ref)
    if n = 0 then none else some (ref.map (fun x => x / n)))

/-- The similarity vector: each normalized gallery vector dotted with the
normalized query (stack @ emb in the source). -/
def simsOf (sq : ℚ → ℚ) (e : List ℚ) (known : List (List ℚ)) : List ℚ :=
  (normalizeList sq known).map (fun r => dot r (e.map (fun x => x / sq (sumSq e))))

/-- The best similarity score computed by match_embedding: the entry of the
similarity vector at the first argmax position. -/
def bestScoreOf (sq : ℚ → ℚ) (e : List ℚ) (known : List (List ℚ)) : ℚ :=
  (simsOf sq e known).getD (argmaxIdx (simsOf sq e known)) 0

/-- detector.match_embedding.  Returns (match index into the normalized,
zero-norm-filtered stack, best score).  The query arrives as an Option to model
the embedding-is-None guard. -/
def match_embedding (sq : ℚ → ℚ) (embedding : Option (List ℚ))
    (known : List (List ℚ)) (threshold : ℚ) : Option ℕ × ℚ :=
  match embedding with
  | none => (none, 0)
  | some e =>
    if known.isEmpty then (none, 0)
    else
      let embNorm := sq (sumSq e)
      if embNorm = 0 then (none, 0)
      else
        let normalized := normalizeList sq known
        if normalized.isEmpty then (none, 0)
        else
          let sims := simsOf sq e known
          let best := argmaxIdx sims
          let bestScore := sims.getD best 0
          if threshold ≤ bestScore then (some best, bestScore)
          else (none, bestScore)

/-- Theorem for claim C7: for every threshold, match_embedding returns
(None, 0.0) when the query embedding is None, when the gallery is empty, or
when the query has zero L2 norm (the norm of e is sq applied to sumSq e, and a
correct square root sends 0 to 0); a zero-norm query never matches anything. -/
theorem match_degenerate_inputs (sq : ℚ → ℚ) (h0 : sq 0 = 0) (e : List ℚ)
    (known : List (List ℚ)) (thr : ℚ) :
    match_embedding sq none known thr = (none, 0) ∧
    match_embedding sq (some e) [] thr = (none, 0) ∧
    (sumSq e = 0 → match_embedding sq (some e) known thr = (none, 0)) := by
  refine ⟨rfl, rfl, fun hz => ?_⟩
  simp only [match_embedding]
  split
  · rfl
  · rw [if_pos (by rw [hz, h0])]

/-- Witness for match_degenerate_inputs at concrete inputs: the identity
function is a valid square root on the values reached here. -/
theorem match_degenerate_inputs_witness :
    match_embedding id none [[1, 0]] (1/2) = (none, 0) ∧
    match_embedding id (some [0, 0]) [] (1/2) = (none, 0) ∧
    match_embedding id (some [0, 0]) [[1, 0]] (1/2) = (none, 0) := by
  have h := match_degenerate_inputs id rfl [0, 0] [[1, 0]] (1/2)
  exact ⟨(match_degenerate_inputs id rfl [0, 0] [[1, 0]] (1/2)).1, h.2.1,
    h.2.2 (by norm_num [sumSq])⟩

/-- Theorem for claim C6: when the computation reaches the scoring step (query
norm nonzero, at least one gallery vector of nonzero norm), a best score equal
to the threshold is accepted (comparison is greater-or-equal, not strict), and
a best score strictly below the threshold yields no match together with the raw
best score. -/
theorem match_threshold_boundary (sq : ℚ → ℚ) (e : List ℚ) (known : List (List ℚ))
    (thr : ℚ) (hq : sq (sumSq e) ≠ 0) (hn : normalizeList sq known ≠ []) :
    (bestScoreOf sq e known = thr →
      match_embedding sq (some e) known thr
        = (some (argmaxIdx (simsOf sq e known)), bestScoreOf sq e known)) ∧
    (bestScoreOf sq e known < thr →
      match_embedding sq (some e) known thr = (none, bestScoreOf sq e known)) := by
  have hni : (normalizeList sq known).isEmpty = false := by
    cases h : normalizeList sq known with
    | nil => exact absurd h hn
    | cons a l => rfl
  have hki : known.isEmpty = false := by
    cases known with
    | nil => exact absurd rfl hn
    | cons a l => rfl
  constructor
  · intro heq
    simp only [match_embedding, hki, hni, if_neg hq, Bool.false_eq_true, if_false,
      bestScoreOf] at heq ⊢
    rw [if_pos (le_of_eq heq.symm)]
  · intro hlt
    simp only [match_embedding, hki, hni, if_neg hq, Bool.false_eq_true, if_false,
      bestScoreOf] at hlt ⊢
    rw [if_neg (not_le_of_lt hlt)]

/-- Witness for match_threshold_boundary: with query [1,0] and gallery [[1,0]]
the best score is exactly 1; threshold 1 is accepted at equality, threshold 2
rejects and still reports the raw best score 1. -/
theorem match_threshold_boundary_witness :
    match_embedding id (some [1, 0]) [[1, 0]] 1 = (some 0, 1) ∧
    match_embedding id (some [1, 0]) [[1, 0]] 2 = (none, 1) := by
  have hq : id (sumSq [1, 0]) ≠ 0 := by norm_num [sumSq]
  have hn : normalizeList id [[1, 0]] ≠ [] := by
    norm_num [normalizeList, sumSq, List.filterMap_cons, List.filterMap_nil]
  have hb : bestScoreOf id [1, 0] [[1, 0]] = 1 := by
    norm_num [bestScoreOf, simsOf, normalizeList, sumSq, dot, argmaxIdx,
      List.filterMap_cons, List.filterMap_nil]
  have ha : argmaxIdx (simsOf id [1, 0] [[1, 0]]) = 0 := by
    norm_num [simsOf, normalizeList, sumSq, dot, argmaxIdx,
      List.filterMap_cons, List.filterMap_nil]
  constructor
  · have h := (match_threshold_boundary id [1, 0] [[1, 0]] 1 hq hn).1 (by rw [hb])
    rw [h, hb, ha]
  · have h := (match_threshold_boundary id [1, 0] [[1, 0]] 2 hq hn).2 (by rw [hb]; norm_num)
    rw [h, hb]

/-! ## Detection pipeline: backend_adapter._run_detection_pipeline -/

/-- A gallery record as returned by faces.load_all_criminals (a dict with
name, auxiliary attributes and a loaded embedding). -/
structure CriminalRecord where
  name : String
  age : Option String
  gender : Option String
  crime : Option String
  image : Option String
  embedding : Option (List ℚ)
deriving DecidableEq

/-- One detected face as handed to the per-face loop of the pipeline: the raw
box from detect_faces_and_crops, the embedding computed by face_to_embedding
(none models the exception path that sets emb to None), and the mask flag. -/
structure Face where
  box : ℤ × ℤ × ℤ × ℤ
  emb : Option (List ℚ)
  has_mask : Bool
deriving DecidableEq

/-- A match dict appended to the pipeline matches list, also the shape consumed
by the alert evaluation (name plus optional score). -/
structure MatchRec where
  name : String
  score : Option ℚ
deriving DecidableEq

/-- A detection_meta dict produced per accepted face. -/
structure Detection where
  box : ℤ × ℤ × ℤ × ℤ
  label : String
  name : String
  score : Option ℚ
  has_mask : Bool
deriving DecidableEq

/-- Substring containment test, modelling the Python in operator on strings. -/
def strContains (hay needle : String) : Bool :=
  (List.range (hay.length + 1)).any (fun i => needle.isPrefixOf (hay.drop i))

/-- Loop body of _run_detection_pipeline for a single face: clamp the box at
zero, run mask-precedence and gallery matching, build the label, the optional
match record and the detection record.  fmt models the two-decimal float
formatting of the f-string; the reported identity is entries[match_idx]. -/
def processFace (sq : ℚ → ℚ) (fmt : ℚ → String) (entries : List CriminalRecord)
    (embeddings : List (List ℚ)) (face : Face) : Option MatchRec × Detection :=
  let emb := face.emb
  let x1 := max 0 face.box.1
  let y1 := max 0 face.box.2.1
  let x2 := max 0 face.box.2.2.1
  let y2 := max 0 face.box.2.2.2
  let mask_block := face.has_mask
  let mr : Option ℕ × Option ℚ :=
    if mask_block then (none, none)
    else if emb.isSome && !embeddings.isEmpty then
      let r := match_embedding sq emb embeddings (11/20)
      (r.1, some r.2)
    else (none, none)
  let triple : Option MatchRec × String × String :=
    match mr.1 with
    | some i =>
      if h : i < entries.length then
        if mask_block then
          (none, "Mask detected - remove mask", "Unknown")
        else
          let nm0 := (entries.get ⟨i, h⟩).name
          let nm := if nm0 = "" then "Unknown" else nm0
          let lbl :=
            match mr.2 with
            | some s => nm ++ " (" ++ fmt s ++ ")"
            | none => nm
          (some ⟨nm, mr.2⟩, lbl, nm)
      else
        match mr.2 with
        | some s =>
          (none,
            if mask_block then "Mask detected - remove mask"
            else "Unknown (" ++ fmt s ++ ")", "Unknown")
        | none =>
          (none, if mask_block then "Mask detected - remove mask" else "Unknown",
            "Unknown")
    | none =>
      match mr.2 with
      | some s =>
        (none,
          if mask_block then "Mask detected - remove mask"
          else "Unknown (" ++ fmt s ++ ")", "Unknown")
      | none =>
        (none, if mask_block then "Mask detected - remove mask" else "Unknown",
          "Unknown")
  let lbl1 := triple.2.1
  let label :=
    if face.has_mask && !(strContains lbl1 "Mask detected") then
      lbl1 ++ " [Mask detected]"
    else lbl1
  (triple.1,
    ⟨(x1, y1, x2, y2), label, if mask_block then "Masked" else triple.2.2,
      mr.2, face.has_mask⟩)

/-- The whole per-image pipeline over the detected faces: the matches list
collects the match records appended inside the loop, the detections list holds
one detection_meta record per face. -/
def run_detection_pipeline (sq : ℚ → ℚ) (fmt : ℚ → String)
    (entries : List CriminalRecord) (embeddings : List (List ℚ))
    (faces : List Face) : List MatchRec × List Detection :=
  (faces.filterMap (fun f => (processFace sq fmt entries embeddings f).1),
   faces.map (fun f => (processFace sq fmt entries embeddings f).2))

lemma filterMap_eq_filterMap_filter {α β : Type} (g : α → Option β)
    (p : α → Bool) (l : List α) (h : ∀ x ∈ l, p x = false → g x = none) :
    l.filterMap g = (l.filter p).filterMap g := by
  induction l with
  | nil => rfl
  | cons a t ih =>
    have ht : ∀ x ∈ t, p x = false → g x = none := fun x hx => h x (List.mem_cons_of_mem a hx)
    cases hp : p a with
    | true => simp [List.filter_cons, hp, List.filterMap_cons, ih ht]
    | false =>
      simp [List.filter_cons, hp, List.filterMap_cons, h a (List.mem_cons_self a t) hp, ih ht]

/-- Theorem for claim C1: a masked face never invokes gallery matching and
never yields a match record; its detection carries the name Masked rather than
any gallery identity, and the pipeline matches list equals the one computed
from the unmasked faces alone, for every gallery and every embedding. -/
theorem masked_faces_produce_no_match (sq : ℚ → ℚ) (fmt : ℚ → String)
    (entries : List CriminalRecord) (embeddings : List (List ℚ))
    (faces : List Face) (f : Face) (hm : f.has_mask = true) :
    (processFace sq fmt entries embeddings f).1 = none ∧
    ((processFace sq fmt entries embeddings f).2).name = "Masked" ∧
    (run_detection_pipeline sq fmt entries embeddings faces).1 =
      ((faces.filter (fun g => !g.has_mask)).filterMap
        (fun g => (processFace sq fmt entries embeddings g).1)) := by
  refine ⟨?_, ?_, ?_⟩
  · simp [processFace, hm]
  · simp [processFace, hm]
  · exact filterMap_eq_filterMap_filter _ _ _ (fun x _ hx => by
      have hxm : x.has_mask = true := by
        cases hmask : x.has_mask with
        | true => rfl
        | false => simp [hmask] at hx
      simp [processFace, hxm])

/-- Witness for masked_faces_produce_no_match: a masked face whose embedding
coincides exactly with a gallery entry still yields no match. -/
theorem masked_faces_produce_no_match_witness :
    (processFace id toString
      [⟨"A", none, none, none, none, some [1, 0]⟩] [[1, 0]]
      ⟨(0, 0, 10, 10), some [1, 0], true⟩).1 = none := by
  exact (masked_faces_produce_no_match id toString
    [⟨"A", none, none, none, none, some [1, 0]⟩] [[1, 0]] []
    ⟨(0, 0, 10, 10), some [1, 0], true⟩ rfl).1

/-- Theorem for claim C2 (code bug): with gallery entries A (stored embedding
of zero norm) and B (unit embedding equal to the query), match_embedding skips
the zero-norm vector of A and returns index 0 into the filtered stack; the
pipeline then reads entries[0] and reports the identity A, although the entry
attaining the maximal cosine similarity with the query is B (similarity 1,
while A is excluded as zero-norm).  The claim that skipping zero-norm gallery
vectors does not change which label is reported therefore fails on the code. -/
theorem matcher_index_misalignment :
    (processFace id toString
      [⟨"A", none, none, none, none, some [0, 0]⟩,
       ⟨"B", none, none, none, none, some [1, 0]⟩]
      [[0, 0], [1, 0]]
      ⟨(0, 0, 10, 10), some [1, 0], false⟩).1 = some ⟨"A", some 1⟩ ∧
    match_embedding id (some [1, 0]) [[0, 0], [1, 0]] (11/20) = (some 0, 1) ∧
    sumSq [0, 0] = 0 ∧
    dot [1, 0] [1, 0] = 1 := by
  have hm : match_embedding id (some [1, 0]) [[0, 0], [1, 0]] (11/20) = (some 0, 1) := by
    norm_num [match_embedding, normalizeList, simsOf, sumSq, dot, argmaxIdx,
      List.filterMap_cons, List.filterMap_nil]
  refine ⟨?_, hm, by norm_num [sumSq], by norm_num [dot]⟩
  simp [processFace, hm]

/-! ## AlertGate: backend_adapter._notify_alert (evaluation and state update) -/

/-- The process-wide alert state: _last_alert_time and the dict
_recently_alerted_criminals, modelled as an association list with the
insertion-order and replace-in-place semantics of a Python dict. -/
structure AlertState where
  lastGlobal : ℚ
  recent : List (String × ℚ)
deriving DecidableEq

/-- First value stored under a key, none if absent (dict lookup). -/
def findA : List (String × ℚ) → String → Option ℚ
  | [], _ => none
  | kv :: rest, k => if kv.1 = k then some kv.2 else findA rest k

/-- Dict get with default: _recently_alerted_criminals.get(name, 0). -/
def lookupD (l : List (String × ℚ)) (k : String) (d : ℚ) : ℚ := (findA l k).getD d

/-- Dict assignment: replace the value in place if the key exists, else append. -/
def insertA : List (String × ℚ) → String → ℚ → List (String × ℚ)
  | [], k, v => [(k, v)]
  | kv :: rest, k, v => if kv.1 = k then (k, v) :: rest else kv :: insertA rest k v

/-- The name filter of the loop: skip names that are empty or Unknown. -/
def validName (n : String) : Bool := !(n == "" || n == "Unknown")

/-- One iteration of the filtering loop of _notify_alert: skip invalid names,
skip names inside the per-identity cooldown, skip in-batch duplicates,
otherwise append the match and its name to the accumulators. -/
def dedupStep (cooldown : ℚ) (recent : List (String × ℚ)) (now : ℚ)
    (acc : List MatchRec × List String) (m : MatchRec) :
    List MatchRec × List String :=
  if !(validName m.name) then acc
  else if now - lookupD recent m.name 0 < cooldown then acc
  else if acc.1.any (fun u => u.name == m.name) then acc
  else (acc.1 ++ [m], acc.2 ++ [m.name])

/-- Sort key of the final sort: x.get(score, 0) with a present None score
modelled as the default (the comparison never runs on None in the pipeline,
whose match scores are always floats). -/
def scoreKey (m : MatchRec) : ℚ := m.score.getD 0

/-- Stable insertion into a descending list; together with sortDesc this
models list.sort(key=..., reverse=True), which is a stable descending sort. -/
def insertDesc (m : MatchRec) : List MatchRec → List MatchRec
  | [] => [m]
  | x :: xs => if scoreKey x ≤ scoreKey m then m :: x :: xs else x :: insertDesc m xs

/-- Stable descending sort by score. -/
def sortDesc : List MatchRec → List MatchRec
  | [] => []
  | m :: rest => insertDesc m (sortDesc rest)

/-- The evaluation-and-state-update core of _notify_alert: returns the eligible
matches (sorted by score descending, the head being the primary alert subject)
and the updated alert state.  Delivery of the notification is out of scope. -/
def notify_alert (cooldown : ℚ) (s : AlertState) (ms : List MatchRec)
    (now : ℚ) : List MatchRec × AlertState :=
  if ms.isEmpty then ([], s)
  else
    let fl := ms.foldl (dedupStep cooldown s.recent now) ([], [])
    if fl.1.isEmpty then ([], s)
    else if now - s.lastGlobal < cooldown then ([], s)
    else
      let recent1 := fl.2.foldl (fun mp n => insertA mp n now) s.recent
      let recent2 := recent1.filter (fun kv => decide (now - 2 * cooldown < kv.2))
      (sortDesc fl.1, ⟨now, recent2⟩)

/-- Default of the ALERT_COOLDOWN environment variable. -/
def ALERT_COOLDOWN : ℚ := 30

/-- Theorem for claim C3: any evaluation strictly inside the global cooldown
window returns no eligible matches and leaves the whole alert state untouched,
whatever the candidate matches are (in particular even if every identity passed
its per-identity cooldown check), so of two different identities detected
within one cooldown window only the first can fire. -/
theorem global_cooldown_suppresses (cooldown : ℚ) (s : AlertState)
    (ms : List MatchRec) (now : ℚ) (h : now - s.lastGlobal < cooldown) :
    notify_alert cooldown s ms now = ([], s) := by
  simp only [notify_alert]
  split_ifs <;> rfl

/-- Witness for global_cooldown_suppresses: identity X fired at time 100; an
evaluation for a different identity Y at time 110 is suppressed entirely and
mutates nothing, although Y itself was never alerted (its per-identity check
passes, as the side conjuncts record). -/
theorem global_cooldown_suppresses_witness :
    notify_alert 30 ⟨100, [("X", 100)]⟩ [⟨"Y", some (9/10)⟩] 110
      = ([], ⟨100, [("X", 100)]⟩) ∧
    lookupD [("X", 100)] "Y" 0 = 0 ∧ ¬((110 : ℚ) - 0 < 30) := by
  refine ⟨global_cooldown_suppresses 30 ⟨100, [("X", 100)]⟩
    [⟨"Y", some (9/10)⟩] 110 (by norm_num), ?_, by norm_num⟩
  simp [lookupD, findA]

lemma findA_insertA_self (l : List (String × ℚ)) (k : String) (v : ℚ) :
    findA (insertA l k v) k = some v := by
  induction l with
  | nil => simp [insertA, findA]
  | cons kv rest ih =>
    by_cases h : kv.1 = k
    · simp [insertA, h, findA]
    · simp [insertA, h, findA, ih]

lemma findA_insertA_ne (l : List (String × ℚ)) (k k2 : String) (v : ℚ)
    (h : k ≠ k2) : findA (insertA l k2 v) k = findA l k := by
  induction l with
  | nil => simp [insertA, findA, Ne.symm h]
  | cons kv rest ih =>
    by_cases h1 : kv.1 = k2
    · simp [insertA, h1, findA, Ne.symm h]
    · by_cases h2 : kv.1 = k
      · simp [insertA, h1, findA, h2, h]
      · simp [insertA, h1, findA, h2, ih]

lemma findA_insertAll_not_mem (names : List String) (l : List (String × ℚ))
    (v : ℚ) (n : String) (hn : n ∉ names) :
    findA (names.foldl (fun mp k => insertA mp k v) l) n = findA l n := by
  induction names generalizing l with
  | nil => rfl
  | cons a t ih =>
    have hna : n ≠ a := fun h => hn (h ▸ List.mem_cons_self a t)
    have hnt : n ∉ t := fun h => hn (List.mem_cons_of_mem a h)
    simp only [List.foldl_cons]
    rw [ih _ hnt, findA_insertA_ne _ _ _ _ hna]

lemma findA_insertAll_mem (names : List String) (l : List (String × ℚ))
    (v : ℚ) (n : String) (hn : n ∈ names) :
    findA (names.foldl (fun mp k => insertA mp k v) l) n = some v := by
  induction names generalizing l with
  | nil => exact absurd hn (List.not_mem_nil n)
  | cons a t ih =>
    simp only [List.foldl_cons]
    by_cases ht : n ∈ t
    · exact ih _ ht
    · have hna : n = a := by
        rcases List.mem_cons.mp hn with h | h
        · exact h
        · exact absurd h ht
      rw [findA_insertAll_not_mem t _ v n ht, hna, findA_insertA_self]

lemma findA_filter (l : List (String × ℚ)) (p : String × ℚ → Bool) (k : String)
    (v : ℚ) (hf : findA l k = some v) (hp : p (k, v) = true) :
    findA (l.filter p) k = some v := by
  induction l with
  | nil => simp [findA] at hf
  | cons kv rest ih =>
    by_cases h : kv.1 = k
    · have hv : kv.2 = v := by
        simpa [findA, h] using hf
      have hkv : kv = (k, v) := by
        cases kv; simp_all
      rw [hkv]
      simp [List.filter_cons, hp, findA]
    · have hf2 : findA rest k = some v := by
        simpa [findA, h] using hf
      cases hpk : p kv with
      | true => simp [List.filter_cons, hpk, findA, h, ih hf2]
      | false => simp [List.filter_cons, hpk, ih hf2]

lemma insertDesc_ne_nil (m : MatchRec) (l : List MatchRec) : insertDesc m l ≠ [] := by
  cases l with
  | nil => simp [insertDesc]
  | cons a t =>
    simp only [insertDesc]
    split_ifs <;> simp

lemma sortDesc_ne_nil (l : List MatchRec) (h : l ≠ []) : sortDesc l ≠ [] := by
  cases l with
  | nil => exact absurd rfl h
  | cons a t => exact insertDesc_ne_nil a (sortDesc t)

lemma mem_insertDesc (x m : MatchRec) (l : List MatchRec) :
    x ∈ insertDesc m l ↔ x = m ∨ x ∈ l := by
  induction l with
  | nil => simp [insertDesc]
  | cons a t ih =>
    simp only [insertDesc]
    split_ifs
    · simp [List.mem_cons]
    · simp only [List.mem_cons, ih]
      tauto

lemma mem_sortDesc (x : MatchRec) (l : List MatchRec) : x ∈ sortDesc l ↔ x ∈ l := by
  induction l with
  | nil => simp [sortDesc]
  | cons a t ih => simp [sortDesc, mem_insertDesc, ih]

lemma dedup_sound (c : ℚ) (mp : List (String × ℚ)) (now : ℚ) (ms : List MatchRec) :
    ∀ acc : List MatchRec × List String,
      ∀ m ∈ (ms.foldl (dedupStep c mp now) acc).1,
        m ∈ acc.1 ∨ (validName m.name = true ∧ ¬(now - lookupD mp m.name 0 < c)) := by
  induction ms with
  | nil => exact fun acc m hm => Or.inl hm
  | cons m0 tl ih =>
    intro acc m hm
    simp only [List.foldl_cons] at hm
    rcases ih (dedupStep c mp now acc m0) m hm with h | h
    · simp only [dedupStep] at h
      split_ifs at h with hv hcd hdup
      · exact Or.inl h
      · exact Or.inl h
      · exact Or.inl h
      · rcases List.mem_append.mp h with h1 | h1
        · exact Or.inl h1
        · have hx : m = m0 := by simpa using h1
          subst hx
          exact Or.inr ⟨by simpa using hv, hcd⟩
    · exact Or.inr h

lemma dedup_names (c : ℚ) (mp : List (String × ℚ)) (now : ℚ) (ms : List MatchRec) :
    ∀ acc : List MatchRec × List String,
      (∀ m ∈ acc.1, m.name ∈ acc.2) →
      ∀ m ∈ (ms.foldl (dedupStep c mp now) acc).1,
        m.name ∈ (ms.foldl (dedupStep c mp now) acc).2 := by
  induction ms with
  | nil => exact fun acc hacc m hm => hacc m hm
  | cons m0 tl ih =>
    intro acc hacc m hm
    simp only [List.foldl_cons] at hm ⊢
    refine ih (dedupStep c mp now acc m0) ?_ m hm
    intro x hx
    simp only [dedupStep] at hx ⊢
    split_ifs at hx ⊢ with hv hcd hdup
    · exact hacc x hx
    · exact hacc x hx
    · exact hacc x hx
    · rcases List.mem_append.mp hx with h1 | h1
      · exact List.mem_append.mpr (Or.inl (hacc x h1))
      · have hx0 : x = m0 := by simpa using h1
        subst hx0
        exact List.mem_append.mpr (Or.inr (by simp))

/-- Evaluation of the alert core on a single candidate match, as one nested
conditional: invalid name, per-identity cooldown and global cooldown all
suppress without touching the state; otherwise the state is fully updated. -/
lemma notify_alert_singleton (c : ℚ) (s : AlertState) (X : String)
    (sc : Option ℚ) (now : ℚ) :
    notify_alert c s [⟨X, sc⟩] now =
      if validName X = true then
        if now - lookupD s.recent X 0 < c then ([], s)
        else if now - s.lastGlobal < c then ([], s)
        else ([⟨X, sc⟩], ⟨now, (insertA s.recent X now).filter
          (fun kv => decide (now - 2 * c < kv.2))⟩)
      else ([], s) := by
  by_cases hv : validName X = true <;>
    by_cases hcd : now - lookupD s.recent X 0 < c <;>
      by_cases hg : now - s.lastGlobal < c <;>
        simp [notify_alert, dedupStep, hv, hcd, hg, sortDesc, insertDesc]

/-- Theorem for claim C4: with the default 30 second cooldown, once an
evaluation fires an alert for identity X at time t, an evaluation for X at
time t + 10 is suppressed (returns empty, state untouched), while an
evaluation for X at time t + 31 makes X eligible again (the global cooldown,
which uses the same constant, has then also elapsed). -/
theorem per_identity_cooldown_cycle (s0 : AlertState) (X : String) (t : ℚ)
    (s1 : AlertState)
    (hfire : notify_alert 30 s0 [⟨X, some (9/10)⟩] t = ([⟨X, some (9/10)⟩], s1)) :
    notify_alert 30 s1 [⟨X, some (9/10)⟩] (t + 10) = ([], s1) ∧
    (notify_alert 30 s1 [⟨X, some (9/10)⟩] (t + 31)).1 = [⟨X, some (9/10)⟩] := by
  rw [notify_alert_singleton] at hfire
  by_cases hv : validName X = true
  case neg =>
    rw [if_neg hv] at hfire
    simp at hfire
  rw [if_pos hv] at hfire
  by_cases hcd : t - lookupD s0.recent X 0 < 30
  · rw [if_pos hcd] at hfire
    simp at hfire
  rw [if_neg hcd] at hfire
  by_cases hg : t - s0.lastGlobal < 30
  · rw [if_pos hg] at hfire
    simp at hfire
  rw [if_neg hg] at hfire
  have hs1 : s1 = ⟨t, (insertA s0.recent X t).filter
      (fun kv => decide (t - 2 * 30 < kv.2))⟩ := by
    have h2 := congrArg Prod.snd hfire
    exact h2.symm
  have hfind : findA s1.recent X = some t := by
    rw [hs1]
    exact findA_filter _ _ _ _ (findA_insertA_self _ _ _)
      (by simp only [decide_eq_true_eq]; linarith)
  have hlook : lookupD s1.recent X 0 = t := by
    simp [lookupD, hfind]
  have hlg : s1.lastGlobal = t := by rw [hs1]
  constructor
  · rw [notify_alert_singleton, if_pos hv,
      if_pos (show t + 10 - lookupD s1.recent X 0 < 30 by rw [hlook]; linarith)]
  · rw [notify_alert_singleton, if_pos hv,
      if_neg (show ¬(t + 31 - lookupD s1.recent X 0 < 30) by rw [hlook]; linarith),
      if_neg (show ¬(t + 31 - s1.lastGlobal < 30) by rw [hlg]; linarith)]

/-- Witness for per_identity_cooldown_cycle: X fires at time 100 from the
initial state; at 110 it is suppressed, at 131 it is eligible again. -/
theorem per_identity_cooldown_cycle_witness :
    notify_alert 30 ⟨100, [("X", 100)]⟩ [⟨"X", some (9/10)⟩] (100 + 10)
      = ([], ⟨100, [("X", 100)]⟩) ∧
    (notify_alert 30 ⟨100, [("X", 100)]⟩ [⟨"X", some (9/10)⟩] (100 + 31)).1
      = [⟨"X", some (9/10)⟩] := by
  have hfire : notify_alert 30 ⟨0, []⟩ [⟨"X", some (9/10)⟩] 100
      = ([⟨"X", some (9/10)⟩], ⟨100, [("X", 100)]⟩) := by
    have h1 : ([⟨"X", some (9/10)⟩] : List MatchRec).foldl
        (dedupStep 30 [] 100) ([], []) = ([⟨"X", some (9/10)⟩], ["X"]) := by
      simp [dedupStep, validName, lookupD, findA]
      norm_num
    simp [notify_alert, h1, insertA, sortDesc, insertDesc, scoreKey]
    norm_num
  exact per_identity_cooldown_cycle ⟨0, []⟩ "X" 100 ⟨100, [("X", 100)]⟩ hfire

/-- Theorem for claim C5: the alert evaluation is all-or-nothing.  If it
returns no eligible matches the state is exactly the input state (no timestamp
was mutated); if it returns eligible matches then every suppression check had
passed (global cooldown elapsed, and each returned identity valid and outside
its per-identity cooldown) and the state is fully updated in the same step:
the global timestamp is now and every returned identity is mapped to now. -/
theorem alert_state_all_or_nothing (c : ℚ) (s : AlertState) (ms : List MatchRec)
    (now : ℚ) (hc : 0 < c) :
    ((notify_alert c s ms now).1 = [] → (notify_alert c s ms now).2 = s) ∧
    ((notify_alert c s ms now).1 ≠ [] →
      c ≤ now - s.lastGlobal ∧
      ((notify_alert c s ms now).2).lastGlobal = now ∧
      ∀ m ∈ (notify_alert c s ms now).1,
        validName m.name = true ∧ c ≤ now - lookupD s.recent m.name 0 ∧
        findA ((notify_alert c s ms now).2).recent m.name = some now) := by
  simp only [notify_alert]
  split_ifs with h1 h2 h3
  · exact ⟨fun _ => rfl, fun hne => absurd rfl hne⟩
  · exact ⟨fun _ => rfl, fun hne => absurd rfl hne⟩
  · exact ⟨fun _ => rfl, fun hne => absurd rfl hne⟩
  · have hflne : (ms.foldl (dedupStep c s.recent now) ([], [])).1 ≠ [] := by
      intro h0
      rw [h0] at h2
      exact h2 rfl
    constructor
    · intro h0
      exact absurd h0 (sortDesc_ne_nil _ hflne)
    · intro _
      refine ⟨not_lt.mp h3, rfl, ?_⟩
      intro m hm
      have hm1 : m ∈ (ms.foldl (dedupStep c s.recent now) ([], [])).1 :=
        (mem_sortDesc _ _).mp hm
      have hA := dedup_sound c s.recent now ms ([], []) m hm1
      rcases hA with hA | hA
      · exact absurd hA (List.not_mem_nil m)
      · have hB := dedup_names c s.recent now ms ([], [])
          (fun x hx => absurd hx (List.not_mem_nil x)) m hm1
        refine ⟨hA.1, not_lt.mp hA.2, ?_⟩
        exact findA_filter _ _ _ _
          (findA_insertAll_mem _ _ _ _ hB)
          (by simp only [decide_eq_true_eq]; linarith)

/-- Witness for alert_state_all_or_nothing: a fired evaluation updates both
timestamps in the same step; here X fires at time 100 from the initial state
and is mapped to 100 in the updated map while the global timestamp becomes
100. -/
theorem alert_state_all_or_nothing_witness :
    (30 : ℚ) ≤ 100 - (⟨0, []⟩ : AlertState).lastGlobal ∧
    ((notify_alert 30 ⟨0, []⟩ [⟨"X", some (9/10)⟩] 100).2).lastGlobal = 100 ∧
    findA ((notify_alert 30 ⟨0, []⟩ [⟨"X", some (9/10)⟩] 100).2).recent "X"
      = some 100 := by
  have h := (alert_state_all_or_nothing 30 ⟨0, []⟩ [⟨"X", some (9/10)⟩] 100
    (by norm_num)).2 (by
      intro h0
      have h1 : ([⟨"X", some (9/10)⟩] : List MatchRec).foldl
          (dedupStep 30 [] 100) ([], []) = ([⟨"X", some (9/10)⟩], ["X"]) := by
        simp [dedupStep, validName, lookupD, findA]
        norm_num
      rw [notify_alert_singleton] at h0
      simp [validName, lookupD, findA] at h0
      norm_num at h0)
  refine ⟨h.1, h.2.1, ?_⟩
  have hm := h.2.2 ⟨"X", some (9/10)⟩ ?_
  · exact hm.2.2
  · rw [notify_alert_singleton]
    simp [validName, lookupD, findA]
    norm_num

/-- Counterexample for claim C9: a suppressed evaluation does NOT purge stale
entries.  With cooldown 30, state (lastGlobal 95, map Z mapped to 0), a batch
for X at time 100 passes the per-identity check but hits the global cooldown;
the evaluation returns empty with the state untouched, and the entry for Z is
still present although its age 100 exceeds 2 times the cooldown. -/
theorem stale_entry_after_suppressed_eval :
    notify_alert 30 ⟨95, [("Z", 0)]⟩ [⟨"X", some (9/10)⟩] 100
      = ([], ⟨95, [("Z", 0)]⟩) ∧
    ("Z", (0 : ℚ)) ∈ ((notify_alert 30 ⟨95, [("Z", 0)]⟩
      [⟨"X", some (9/10)⟩] 100).2).recent ∧
    (100 : ℚ) - 0 > 2 * 30 := by
  have he : notify_alert 30 ⟨95, [("Z", 0)]⟩ [⟨"X", some (9/10)⟩] 100
      = ([], ⟨95, [("Z", 0)]⟩) := by
    rw [notify_alert_singleton]
    rw [if_pos (by simp [validName]),
      if_neg (show ¬((100 : ℚ) - lookupD [("Z", 0)] "X" 0 < 30) by
        simp [lookupD, findA]; norm_num),
      if_pos (show (100 : ℚ) - (⟨95, [("Z", 0)]⟩ : AlertState).lastGlobal < 30 by
        norm_num)]
  exact ⟨he, by rw [he]; simp, by norm_num⟩

/-- Amended theorem for claim C9: the purge of entries older than twice the
cooldown happens only on evaluations that fire; after any evaluation that
returns a non-empty eligible list, every entry of the per-identity map is
younger than 2 times the cooldown relative to the evaluation time.  Suppressed
evaluations leave the map, including stale entries, untouched. -/
theorem purge_only_on_fired_evaluations (c : ℚ) (s : AlertState)
    (ms : List MatchRec) (now : ℚ) (hf : (notify_alert c s ms now).1 ≠ []) :
    ∀ kv ∈ ((notify_alert c s ms now).2).recent, now - 2 * c < kv.2 := by
  intro kv hkv
  simp only [notify_alert] at hf hkv
  split_ifs at hf hkv with h1 h2 h3
  · exact absurd rfl hf
  · exact absurd rfl hf
  · exact absurd rfl hf
  · have hmem := List.mem_filter.mp hkv
    simpa [decide_eq_true_eq] using hmem.2

/-- Witness for purge_only_on_fired_evaluations: a fired evaluation at time
100 purges the stale Z entry and keeps only X mapped to 100, which is younger
than 2 times the cooldown. -/
theorem purge_only_on_fired_evaluations_witness :
    (100 : ℚ) - 2 * 30
      < (("X", (100 : ℚ)) : String × ℚ).2 ∧
    ("X", (100 : ℚ)) ∈ ((notify_alert 30 ⟨0, [("Z", 0)]⟩
      [⟨"X", some (9/10)⟩] 100).2).recent := by
  have he : notify_alert 30 ⟨0, [("Z", 0)]⟩ [⟨"X", some (9/10)⟩] 100
      = ([⟨"X", some (9/10)⟩], ⟨100, [("X", 100)]⟩) := by
    rw [notify_alert_singleton]
    rw [if_pos (by simp [validName]),
      if_neg (show ¬((100 : ℚ) - lookupD [("Z", 0)] "X" 0 < 30) by
        simp [lookupD, findA]; norm_num),
      if_neg (show ¬((100 : ℚ) - (⟨0, [("Z", 0)]⟩ : AlertState).lastGlobal < 30) by
        norm_num)]
    simp [insertA, List.filter]
    norm_num
  have hmem : ("X", (100 : ℚ)) ∈ ((notify_alert 30 ⟨0, [("Z", 0)]⟩
      [⟨"X", some (9/10)⟩] 100).2).recent := by
    rw [he]
    simp
  exact ⟨purge_only_on_fired_evaluations 30 ⟨0, [("Z", 0)]⟩
    [⟨"X", some (9/10)⟩] 100 (by rw [he]; simp) ("X", 100) hmem, hmem⟩

/-! ## Face detection box handling: detector.detect_faces_and_crops -/

/-- Python round applied to a float coordinate: round half to even. -/
def pyRound (q : ℚ) : ℤ :=
  let f := ⌊q⌋
  let r := q - f
  if r < 1/2 then f
  else if 1/2 < r then f + 1
  else if 2 ∣ f then f else f + 1

/-- Box handling of the FaceNet branch of detect_faces_and_crops: each raw
MTCNN box coordinate becomes int(max(0, round(coord))), and a box whose
resulting width or height is non-positive is silently skipped.  No clamping
against the image width or height is performed. -/
def facenetBoxes (raw : List (ℚ × ℚ × ℚ × ℚ)) : List (ℤ × ℤ × ℤ × ℤ) :=
  raw.filterMap (fun b =>
    let x1 := max 0 (pyRound b.1)
    let y1 := max 0 (pyRound b.2.1)
    let x2 := max 0 (pyRound b.2.2.1)
    let y2 := max 0 (pyRound b.2.2.2)
    if x2 ≤ x1 ∨ y2 ≤ y1 then none else some (x1, y1, x2, y2))

/-- Box handling of the Haar-cascade branch of detect_faces_and_crops: every
raw (x, y, w, h) detection is turned into (x, y, x + w, y + h) and appended
unconditionally; there is no clamping and no dropping in this branch. -/
def cascadeBoxes (raw : List (ℤ × ℤ × ℤ × ℤ)) : List (ℤ × ℤ × ℤ × ℤ) :=
  raw.map (fun r => (r.1, r.2.1, r.1 + r.2.2.1, r.2.1 + r.2.2.2))

/-- Counterexample for claim C8: the FaceNet branch does not clamp boxes into
the image rectangle.  A raw box (10, 10, 150, 50) on a 100 by 100 image is
returned verbatim, with x2 = 150 outside [0, 100); only the lower bound 0 is
enforced. -/
theorem box_not_clamped_to_image :
    facenetBoxes [(10, 10, 150, 50)] = [(10, 10, 150, 50)] ∧
    ¬((150 : ℤ) < 100) := by
  constructor
  · norm_num [facenetBoxes, pyRound, List.filterMap_cons, List.filterMap_nil]
  · norm_num

/-- Amended theorem for claim C8: under the FaceNet backend every returned box
has coordinates bounded below by 0 and satisfies x2 greater than x1 and y2
greater than y1, with non-positive-area boxes dropped; under the classical
cascade backend boxes pass through as (x, y, x + w, y + h) with no clamping
and no dropping.  Neither backend clamps to the image width or height. -/
theorem box_postprocess_amended (raw : List (ℚ × ℚ × ℚ × ℚ))
    (rawC : List (ℤ × ℤ × ℤ × ℤ)) (b : ℤ × ℤ × ℤ × ℤ)
    (hb : b ∈ facenetBoxes raw) (r : ℤ × ℤ × ℤ × ℤ) (hr : r ∈ rawC) :
    (0 ≤ b.1 ∧ 0 ≤ b.2.1 ∧ b.1 < b.2.2.1 ∧ b.2.1 < b.2.2.2) ∧
    (r.1, r.2.1, r.1 + r.2.2.1, r.2.1 + r.2.2.2) ∈ cascadeBoxes rawC := by
  constructor
  · rcases List.mem_filterMap.mp hb with ⟨a, _, ha⟩
    simp only at ha
    split_ifs at ha with hcond
    · push_neg at hcond
      rcases hcond with ⟨hx, hy⟩
      have hb1 : b = (max 0 (pyRound a.1), max 0 (pyRound a.2.1),
          max 0 (pyRound a.2.2.1), max 0 (pyRound a.2.2.2)) :=
        (Option.some_injective _ ha).symm
      subst hb1
      exact ⟨le_max_left _ _, le_max_left _ _, hx, hy⟩
  · exact List.mem_map.mpr ⟨r, hr, rfl⟩

/-- Witness for box_postprocess_amended at a concrete pair of raw detections:
a FaceNet box with a negative raw corner is clamped below at 0 and kept, and a
cascade detection (5, 6, 20, 30) becomes the box (5, 6, 25, 36). -/
theorem box_postprocess_amended_witness :
    ((0 : ℤ) ≤ 0 ∧ (0 : ℤ) ≤ 2 ∧ (0 : ℤ) < 7 ∧ (2 : ℤ) < 9) ∧
    ((5 : ℤ), (6 : ℤ), (25 : ℤ), (36 : ℤ)) ∈ cascadeBoxes [(5, 6, 20, 30)] := by
  have hb : ((0 : ℤ), (2 : ℤ), (7 : ℤ), (9 : ℤ)) ∈ facenetBoxes [(-3, 2, 7, 9)] := by
    have hm3 : pyRound (-3 : ℚ) = -3 := by
      have h3 : ⌊(-3 : ℚ)⌋ = -3 := by norm_num
      simp only [pyRound, h3]
      norm_num
    have hc2 : pyRound (2 : ℚ) = 2 := by
      have h3 : ⌊(2 : ℚ)⌋ = 2 := by norm_num
      simp only [pyRound, h3]
      norm_num
    have hc7 : pyRound (7 : ℚ) = 7 := by
      have h3 : ⌊(7 : ℚ)⌋ = 7 := by norm_num
      simp only [pyRound, h3]
      norm_num
    have hc9 : pyRound (9 : ℚ) = 9 := by
      have h3 : ⌊(9 : ℚ)⌋ = 9 := by norm_num
      simp only [pyRound, h3]
      norm_num
    simp only [facenetBoxes, List.filterMap_cons, List.filterMap_nil, hm3, hc2, hc7, hc9]
    norm_num
  have h := box_postprocess_amended [(-3, 2, 7, 9)] [(5, 6, 20, 30)]
    (0, 2, 7, 9) hb (5, 6, 20, 30) (by simp)
  exact ⟨h.1, h.2⟩

/-! ## Gallery loading: faces.load_all_criminals, backend_adapter._load_db_bundle -/

/-- A metadata record of criminals.json: auxiliary attributes plus the stored
paths of the image and the saved embedding file. -/
structure CriminalMeta where
  age : Option String
  gender : Option String
  crime : Option String
  image : Option String
  embeddingPath : Option String
deriving DecidableEq

/-- Loading of a single metadata item inside load_all_criminals: the record is
produced only when the embedding path is set, non-empty and present on disk
(fs maps an existing file path to its stored vector), and then its embedding
field holds the loaded vector (np.load of an existing .npy file yields a
value, never None). -/
def loadOne (fs : String → Option (List ℚ)) (nd : String × CriminalMeta) :
    Option CriminalRecord :=
  match nd.2.embeddingPath with
  | none => none
  | some p =>
    if p = "" then none
    else
      match fs p with
      | none => none
      | some emb =>
        some ⟨nd.1, nd.2.age, nd.2.gender, nd.2.crime, nd.2.image, some emb⟩

/-- faces.load_all_criminals over the metadata dict: records whose embedding
file is missing are omitted entirely. -/
def load_all_criminals (fs : String → Option (List ℚ))
    (data : List (String × CriminalMeta)) : List CriminalRecord :=
  data.filterMap (loadOne fs)

/-- backend_adapter._load_db_bundle: the entries list from load_all_criminals
together with the embeddings list collecting every non-None embedding. -/
def load_db_bundle (fs : String → Option (List ℚ))
    (data : List (String × CriminalMeta)) :
    List CriminalRecord × List (List ℚ) :=
  let entries := load_all_criminals fs data
  (entries, entries.filterMap (fun item => item.embedding))

lemma loadOne_embedding_isSome (fs : String → Option (List ℚ))
    (nd : String × CriminalMeta) (r : CriminalRecord)
    (h : loadOne fs nd = some r) : ∃ v, r.embedding = some v := by
  unfold loadOne at h
  cases hp : nd.2.embeddingPath with
  | none => simp [hp] at h
  | some p =>
    simp only [hp] at h
    by_cases hpe : p = ""
    · simp [hpe] at h
    · rw [if_neg hpe] at h
      cases hf : fs p with
      | none => simp [hf] at h
      | some emb =>
        simp only [hf] at h
        injection h with h2
        subst h2
        exact ⟨emb, rfl⟩

lemma map_embedding_eq_filterMap (l : List CriminalRecord)
    (hall : ∀ r ∈ l, ∃ v, r.embedding = some v) :
    l.map (fun r => r.embedding)
      = (l.filterMap (fun item => item.embedding)).map some := by
  induction l with
  | nil => rfl
  | cons a t ih =>
    rcases hall a (List.mem_cons_self a t) with ⟨v, hv⟩
    simp only [List.map_cons, List.filterMap_cons, hv]
    exact congrArg (List.cons (some v))
      (ih (fun r hr => hall r (List.mem_cons_of_mem a hr)))

/-- Theorem for claim C10: every record returned by load_all_criminals carries
a loaded embedding, so the embeddings list built by _load_db_bundle has exactly
one element per record, in the same order: mapping the embedding field over the
entries equals mapping some over the embeddings list, hence gallery index i
always refers to the record at position i. -/
theorem db_bundle_alignment (fs : String → Option (List ℚ))
    (data : List (String × CriminalMeta)) :
    ((load_db_bundle fs data).1).map (fun r => r.embedding)
      = ((load_db_bundle fs data).2).map some := by
  have hall : ∀ r ∈ load_all_criminals fs data, ∃ v, r.embedding = some v := by
    intro r hr
    rcases List.mem_filterMap.mp hr with ⟨nd, _, hnd⟩
    exact loadOne_embedding_isSome fs nd r hnd
  exact map_embedding_eq_filterMap (load_all_criminals fs data) hall

end ApnaCriminal
